import Mathlib

/-!
# Verification of the Unified Agent Runtime

A shallow embedding, in Lean 4, of the core functions of the `guyi-code-mother`
repository (Python), together with theorems settling the spec's claims about
them.  Python strings are modelled as `List Char` (a Python `str` is a sequence
of code points); fallible Python functions are modelled with `Except`/`Option`;
the stateful Claude service's mutable fields are threaded explicitly as a state
record.  Each definition is translated from the corresponding source function,
named after it where Lean allows.
-/

set_option autoImplicit false

namespace Guyi

/-! ## Character and line utilities

`pyIsSpace` models Python's notion of whitespace as used by `str.strip()` and
by the regular expression class `\s` (restricted to the ASCII whitespace
characters; all inputs appearing in the claims are ASCII). -/

def pyIsSpace (c : Char) : Bool :=
  c == ' ' || c == '\t' || c == '\n' || c == '\r' || c == '\x0b' || c == '\x0c'

/-- Python `str.strip()`: drop whitespace from both ends. -/
def pyStrip (l : List Char) : List Char :=
  ((l.dropWhile pyIsSpace).reverse.dropWhile pyIsSpace).reverse

/-- Python `str.split('\n')`.  Note `"".split('\n') == [""]`. -/
def splitNL : List Char → List (List Char)
  | [] => [[]]
  | c :: rest =>
    if c = '\n' then [] :: splitNL rest
    else
      match splitNL rest with
      | [] => [[c]]
      | p :: ps => (c :: p) :: ps

/-- Python `'\n'.join(pieces)`. -/
def interNL : List (List Char) → List Char
  | [] => []
  | [p] => p
  | p :: ps => p ++ '\n' :: interNL ps

/-- A line survives the filter loop of `_filter_content` iff it is not matched
by `re.search(r'^\s*$', line)`, i.e. iff it contains a non-whitespace char. -/
def nonBlank (l : List Char) : Bool :=
  l.any (fun c => !pyIsSpace c)

def noContentSentinel : List Char := "(no content)".toList

/-- Model of `ClaudeAgentService._filter_content` (agent_service_cc.py:165-191):
empty input maps to empty; input whose `strip()` equals the literal
`"(no content)"` maps to empty; otherwise the input is split on newlines,
blank lines are dropped, and the rest re-joined with newlines. -/
def filter_content (x : List Char) : List Char :=
  if x = [] then []
  else if pyStrip x = noContentSentinel then []
  else interNL ((splitNL x).filter nonBlank)

/-! ## Forward-difference streaming deltas

`AgentService.stream` (agent_service.py:157-204) keeps a running cumulative
string `full_output` and, for each cumulative content value it sees, yields the
new suffix whenever the new value is strictly longer; `full_output` is updated
to the new value.  `ClaudeAgentService.stream` (agent_service_cc.py:339-352)
does the same on the text of assistant `TextBlock`s, except that each new
suffix is passed through `_filter_content` and yielded only if the filtered
form is nonempty. -/

/-- Deltas yielded by the stateless LangChain stream given the sequence of
cumulative content values it observes. -/
def forwardDeltas (full : List Char) : List (List Char) → List (List Char)
  | [] => []
  | c :: rest =>
    if full.length < c.length then (c.drop full.length) :: forwardDeltas c rest
    else forwardDeltas full rest

/-- Deltas yielded by the stateful Claude stream given the sequence of
cumulative assistant text values it observes. -/
def claudeDeltas (full : List Char) : List (List Char) → List (List Char)
  | [] => []
  | c :: rest =>
    if full.length < c.length then
      let f := filter_content (c.drop full.length)
      if f = [] then claudeDeltas c rest else f :: claudeDeltas c rest
    else claudeDeltas full rest

/-- Chain predicate `s1 ⊆ s2 ⊆ ...`: each cumulative value extends the previous one. -/
def prefixChainB : List Char → List (List Char) → Bool
  | _, [] => true
  | full, c :: rest => full.isPrefixOf c && prefixChainB c rest

/-! ## Event model of the stateful stream

Events received from `client.receive_response()` in
`ClaudeAgentService.stream` (agent_service_cc.py:322-368), and the actions the
adapter performs on them.  `CAction.saveSession` models the call to
`memory_store.save_session_id`; `CAction.yieldDelta` models a `yield`. -/

inductive CBlock where
  | text (t : List Char)
  | toolUse (name : String)
deriving DecidableEq

inductive CEvent where
  | system (subtype : String) (sessionId : Option String)
  | assistant (blocks : List CBlock)
  | result (r : List Char)
  | user
deriving DecidableEq

inductive CAction where
  | saveSession (sid : String)
  | yieldDelta (d : List Char)
deriving DecidableEq

/-- Inner loop over the content blocks of one assistant message
(agent_service_cc.py:341-357): forward difference against `full_response`,
filtered before yielding; tool-use blocks are only logged. -/
def processBlocks (full : List Char) : List CBlock → List CAction × List Char
  | [] => ([], full)
  | CBlock.text t :: rest =>
    if full.length < t.length then
      let f := filter_content (t.drop full.length)
      let out := processBlocks t rest
      (if f = [] then out.1 else CAction.yieldDelta f :: out.1, out.2)
    else processBlocks full rest
  | CBlock.toolUse _ :: rest => processBlocks full rest

/-- The receive loop of `ClaudeAgentService.stream` as a trace of actions:
an init-subtype system event carrying a session id is persisted immediately;
assistant events contribute filtered forward-difference deltas; a result event
contributes the trailing extension of its filtered text and terminates the
loop (events after it are never consumed). -/
def streamEvents (full : List Char) : List CEvent → List CAction
  | [] => []
  | CEvent.system sub sid :: rest =>
    (if sub = "init" then
       match sid with
       | some s => [CAction.saveSession s]
       | none => []
     else []) ++ streamEvents full rest
  | CEvent.assistant blocks :: rest =>
    let out := processBlocks full blocks
    out.1 ++ streamEvents out.2 rest
  | CEvent.result r :: _ =>
    let rt := filter_content r
    if rt ≠ [] ∧ full.length < rt.length then
      (if rt.drop full.length ≠ [] then [CAction.yieldDelta (rt.drop full.length)] else [])
    else []
  | CEvent.user :: rest => streamEvents full rest

/-- Session id held in `self.agent_session_id` after the receive loop,
starting from `cur`: updated by every init system event, frozen at the
result event (the loop breaks there). -/
def eventsSessionId (cur : Option String) : List CEvent → Option String
  | [] => cur
  | CEvent.system sub sid :: rest =>
    (if sub = "init" then
       match sid with
       | some s => eventsSessionId (some s) rest
       | none => eventsSessionId cur rest
     else eventsSessionId cur rest)
  | CEvent.assistant _ :: rest => eventsSessionId cur rest
  | CEvent.result _ :: _ => cur
  | CEvent.user :: rest => eventsSessionId cur rest

/-- Concatenation of the text blocks of one assistant message, as accumulated
by `ClaudeAgentService.ainvoke` (agent_service_cc.py:258-264), which appends
block texts without forward differencing. -/
def blocksText : List CBlock → List Char
  | [] => []
  | CBlock.text t :: rest => t ++ blocksText rest
  | CBlock.toolUse _ :: rest => blocksText rest

/-- The receive loop of `ClaudeAgentService.ainvoke` (agent_service_cc.py:
243-272): accumulate assistant text, append the filtered result text, break. -/
def ainvokeCollect (acc : List Char) : List CEvent → List Char
  | [] => acc
  | CEvent.system _ _ :: rest => ainvokeCollect acc rest
  | CEvent.assistant blocks :: rest => ainvokeCollect (acc ++ blocksText blocks) rest
  | CEvent.result r :: _ => acc ++ filter_content r
  | CEvent.user :: rest => ainvokeCollect acc rest

/-! ## Messages and query construction -/

structure PyMsg where
  role : String
  content : String
deriving DecidableEq

/-- The loop body of `_construct_query` (agent_service_cc.py:193-207): scan the
(already reversed) message list and return the content of the first
user-role message found. -/
def lastUserLoop : List PyMsg → String
  | [] => ""
  | m :: rest => if m.role = "user" then m.content else lastUserLoop rest

/-- Model of `ClaudeAgentService._construct_query`: content of the last user message,
`""` when there is none. -/
def construct_query (msgs : List PyMsg) : String :=
  lastUserLoop msgs.reverse

/-- Spec-side description of the query: the last message whose role is
`"user"`. -/
def lastUserMsg (msgs : List PyMsg) : Option PyMsg :=
  (msgs.filter (fun m => m.role == "user")).getLast?

/-- The query decision common to `ainvoke` (agent_service_cc.py:233-236) and
`stream` (agent_service_cc.py:313-317): an empty constructed query short-
circuits the turn with the fixed prompt and `client.query` is never called;
otherwise the constructed query is sent. `Sum.inl` is the early return,
`Sum.inr q` means `await self.client.query(q)` is reached with query `q`. -/
def queryDecision (msgs : List PyMsg) : Sum String String :=
  if construct_query msgs = "" then Sum.inl "请输入您的问题。"
  else Sum.inr (construct_query msgs)

/-! ## The stateful service's connection state machine

The mutable fields of `ClaudeAgentService` relevant to connection lifecycle:
`_connected`, `client` (modelled by whether it is not `None`) and
`agent_session_id`.  The environment collects the outcomes of the external
calls a turn makes (SDK import, session store read, client construction,
`client.connect()`, `receive_response`). -/

structure CCState where
  connected : Bool
  hasClient : Bool
  sessionId : Option String
deriving DecidableEq

/-- State after `__init__` (agent_service_cc.py:58-91): in both the
SDK-missing and the SDK-present branch `self.client` is `None`; no client is
constructed at initialization time. -/
def initCCState : CCState := ⟨false, false, none⟩

structure CCEnv where
  sdkAvailable : Bool
  storeSid : Option String
  createOk1 : Bool
  connectOk1 : Bool
  createOk2 : Bool
  connectOk2 : Bool
  messages : List PyMsg
  receiveOk : Bool
  disconnectOk : Bool
  events : List CEvent

structure ConnectOut where
  ok : Bool
  state : CCState
  attempts : List (Option String)
deriving DecidableEq

/-- Model of `ClaudeAgentService._connect` (agent_service_cc.py:104-151).  `attempts`
records the resume token used by each `client.connect()` call, in order.
A failure of the first `connect()` triggers exactly one fallback: the session
id is cleared, a fresh client without a resume token is created and connected;
any further failure propagates (the outer `except` clears `client` and
`_connected` and re-raises, modelled by `ok = false`). -/
def connectCC (env : CCEnv) (s : CCState) : ConnectOut :=
  if s.connected && s.hasClient then ⟨true, s, []⟩
  else if !env.sdkAvailable then ⟨false, s, []⟩
  else
    let sid := env.storeSid
    if !env.createOk1 then ⟨false, ⟨false, false, sid⟩, []⟩
    else if env.connectOk1 then ⟨true, ⟨true, true, sid⟩, [sid]⟩
    else if !env.createOk2 then ⟨false, ⟨false, false, none⟩, [sid]⟩
    else if env.connectOk2 then ⟨true, ⟨true, true, none⟩, [sid, none]⟩
    else ⟨false, ⟨false, false, none⟩, [sid, none]⟩

/-- Model of `ClaudeAgentService._disconnect` (agent_service_cc.py:153-163): a no-op
unless connected with a live client; `await self.client.disconnect()` may
itself raise (`ok = false`), in which case the failure is logged and
swallowed and `_connected` is NOT cleared — only a successful disconnect
clears `_connected` (the client object is kept either way). -/
def disconnectCC (ok : Bool) (s : CCState) : CCState :=
  if s.connected && s.hasClient then
    (if ok then { s with connected := false } else s)
  else s

/-- Model of `ClaudeAgentService.is_available` (agent_service_cc.py:378-380). -/
def is_availableCC (sdkAvailable : Bool) (s : CCState) : Bool :=
  sdkAvailable && s.hasClient

def sdkApology : List Char := "抱歉，Claude SDK 未安装，Agent 服务暂不可用。".toList
def cfgApology : List Char := "抱歉，Agent 服务暂不可用，请检查配置。".toList
def errApology : List Char := "抱歉，对话过程中出现错误。".toList
def emptyPrompt : List Char := "请输入您的问题。".toList
def noReplyApology : List Char := "抱歉，未收到有效回复。".toList

/-- Model of `ClaudeAgentService.ainvoke` (agent_service_cc.py:209-285) at the
granularity of its exit paths: returns the reply, the final state, and the
number of times `_disconnect` was attempted during the turn. -/
def ainvokeCC (env : CCEnv) (s : CCState) : List Char × CCState × Nat :=
  if !env.sdkAvailable then (sdkApology, s, 0)
  else
    let c := connectCC env s
    if !c.ok then (errApology, disconnectCC env.disconnectOk c.state, 1)
    else if !c.state.hasClient then (cfgApology, c.state, 0)
    else if construct_query env.messages = "" then (emptyPrompt, c.state, 0)
    else if !env.receiveOk then (errApology, disconnectCC env.disconnectOk c.state, 1)
    else
      let fr := filter_content (ainvokeCollect [] env.events)
      let s2 := { c.state with sessionId := eventsSessionId c.state.sessionId env.events }
      ((if fr = [] then noReplyApology else pyStrip fr), disconnectCC env.disconnectOk s2, 1)

/-- Model of `ClaudeAgentService.stream` (agent_service_cc.py:287-376) at the same
granularity: the yielded fragments, the final state, and the number of
`_disconnect` attempts. -/
def streamCC (env : CCEnv) (s : CCState) : List (List Char) × CCState × Nat :=
  if !env.sdkAvailable then ([sdkApology], s, 0)
  else
    let c := connectCC env s
    if !c.ok then ([errApology], disconnectCC env.disconnectOk c.state, 1)
    else if !c.state.hasClient then ([cfgApology], c.state, 0)
    else if construct_query env.messages = "" then ([emptyPrompt], c.state, 0)
    else if !env.receiveOk then ([errApology], disconnectCC env.disconnectOk c.state, 1)
    else
      let acts := streamEvents [] env.events
      let s2 := { c.state with sessionId := eventsSessionId c.state.sessionId env.events }
      (acts.filterMap (fun a => match a with
        | CAction.yieldDelta d => some d
        | _ => none), disconnectCC env.disconnectOk s2, 1)

/-! ## Method tables of the three service classes

The methods defined in the class bodies, read off the source.  Python
attribute lookup on an `AgentService` instance consults the class, then the
base class; a name found in neither raises `AttributeError`. -/

def agentServiceMethods : List String :=
  ["__init__", "_convert_messages", "ainvoke", "stream", "is_available"]

def baseAgentServiceMethods : List String :=
  ["__init__", "ainvoke", "stream", "is_available",
   "_convert_messages_to_unified", "_convert_messages_from_unified"]

def claudeAgentServiceMethods : List String :=
  ["__init__", "_ensure_workspace_exists", "_connect", "_disconnect",
   "_filter_content", "_construct_query", "ainvoke", "stream",
   "is_available", "interrupt"]

def agentServiceHasAttr (name : String) : Bool :=
  agentServiceMethods.contains name || baseAgentServiceMethods.contains name

/-! ## `grep_search` (file_tools.py:173-304)

The glob step is abstracted into the input `matchedFiles`: the files found by
the glob that are regular files inside the workspace, with their line lists.
The compiled regular expression is abstracted into `matcher`, returning the
matched substring (`match.group()`) or `none` (`re.search` returning `None`).
The two `break`s on `len(results) >= max_results` make the result list exactly
the first `max_results` elements of the full match sequence, and the slice
`matched_files[:100]` caps the searched files at 100. -/

inductive GrepRecord where
  | matchRec (filePath : String) (lineNumber : Option Nat)
      (lineContent : List Char) (matchedText : List Char)
  | infoNoMatches (filesSearched : Nat)
  | infoNoFiles
deriving DecidableEq

def isMatchRec : GrepRecord → Bool
  | GrepRecord.matchRec _ _ _ _ => true
  | _ => false

/-- Per-file inner loop: `enumerate(f, 1)` with `compiled_pattern.search`. -/
def fileMatches (matcher : List Char → Option (List Char)) (includeLn : Bool)
    (fp : String) : Nat → List (List Char) → List GrepRecord
  | _, [] => []
  | n, l :: rest =>
    match matcher l with
    | some m =>
      GrepRecord.matchRec fp (if includeLn then some n else none) l m ::
        fileMatches matcher includeLn fp (n + 1) rest
    | none => fileMatches matcher includeLn fp (n + 1) rest

/-- Model of the `grep_search` result assembly: search at most 100 files, truncate matches
at `maxResults`, and on an empty result list return the structured
informational record distinguishing "no matches" from "no files". -/
def grep_search (matcher : List Char → Option (List Char)) (includeLn : Bool)
    (maxResults : Nat) (matchedFiles : List (String × List (List Char))) :
    List GrepRecord :=
  let searched := matchedFiles.take 100
  let results :=
    ((searched.map (fun f => fileMatches matcher includeLn f.1 1 f.2)).flatten).take maxResults
  if results = [] then
    (if matchedFiles ≠ [] then [GrepRecord.infoNoMatches matchedFiles.length]
     else [GrepRecord.infoNoFiles])
  else results

/-! ## Path validation (`_validate_path`, file_tools.py:36-70)

Paths are component lists; a `PyPath` is relative or absolute.  `Path.resolve`
is modelled by `resolveComps`, which processes components left to right:
`"."` is dropped, `".."` removes the last produced component, and a component
whose accumulated path is a symlink restarts resolution at the (absolute)
link target — so symlinks are resolved before the containment check, and
`".."` is canonicalized, never string-matched.  `fuel` bounds symlink chains
(Python raises on symlink loops; with enough fuel the fallback branch is
never taken).  `Path.relative_to` on two resolved paths succeeds iff the
workspace components are a prefix of the target components. -/

structure SymFs where
  links : List String → Option (List String)
  cwd : List String

def resolveComps (fs : SymFs) : Nat → List String → List String → List String
  | 0, acc, rest => acc ++ rest
  | _ + 1, acc, [] => acc
  | fuel + 1, acc, c :: rest =>
    if c = "." then resolveComps fs fuel acc rest
    else if c = ".." then resolveComps fs fuel acc.dropLast rest
    else
      match fs.links (acc ++ [c]) with
      | some tgt => resolveComps fs fuel [] (tgt ++ rest)
      | none => resolveComps fs fuel (acc ++ [c]) rest

structure PyPath where
  isAbsolute : Bool
  comps : List String

/-- Model of `Path(p).resolve()`: a relative path is resolved against the current
working directory. -/
def pyResolve (fs : SymFs) (fuel : Nat) (p : PyPath) : List String :=
  resolveComps fs fuel [] (if p.isAbsolute then p.comps else fs.cwd ++ p.comps)

/-- Model of `_validate_path(workspace_path, file_path)`: resolve the workspace; an
absolute input is resolved and checked for containment, a relative input is
joined to the resolved workspace, resolved, and checked; failure raises
`ValueError` (the path-escape error). -/
def validate_path (fs : SymFs) (fuel : Nat) (workspacePath filePath : PyPath) :
    Except String (List String) :=
  let workspace := pyResolve fs fuel workspacePath
  if filePath.isAbsolute then
    let target := pyResolve fs fuel filePath
    if workspace.isPrefixOf target then Except.ok target
    else Except.error "路径超出工作区范围"
  else
    let target := resolveComps fs fuel [] (workspace ++ filePath.comps)
    if workspace.isPrefixOf target then Except.ok target
    else Except.error "路径超出工作区范围"

/-- Filesystem effects performed by the tool functions after validation. -/
inductive FsEffect where
  | mkdirE (p : List String)
  | writeE (p : List String)
  | readE (p : List String)
deriving DecidableEq

/-- Model of `write_file` (file_tools.py:95-118): validate, then create the parent
directory and write; a validation failure is re-raised and no filesystem
operation happens. -/
def write_file (fs : SymFs) (fuel : Nat) (wp fp : PyPath) :
    Except String Unit × List FsEffect :=
  match validate_path fs fuel wp fp with
  | Except.error e => (Except.error ("写入文件失败: " ++ e), [])
  | Except.ok t => (Except.ok (), [FsEffect.mkdirE t.dropLast, FsEffect.writeE t])

/-- Model of `mkdir` (file_tools.py:73-92). -/
def mkdirTool (fs : SymFs) (fuel : Nat) (wp fp : PyPath) :
    Except String Unit × List FsEffect :=
  match validate_path fs fuel wp fp with
  | Except.error e => (Except.error ("创建文件夹失败: " ++ e), [])
  | Except.ok t => (Except.ok (), [FsEffect.mkdirE t])

/-- Model of `read_file` (file_tools.py:121-144). -/
def read_file (fs : SymFs) (fuel : Nat) (wp fp : PyPath) :
    Except String Unit × List FsEffect :=
  match validate_path fs fuel wp fp with
  | Except.error e => (Except.error ("读取文件失败: " ++ e), [])
  | Except.ok t => (Except.ok (), [FsEffect.readE t])

/-! ## Concrete instances used by witnesses and counterexamples -/

/-- A workspace `/ws` containing a symlink `/ws/link -> /etc`. -/
def witFs : SymFs :=
  { links := fun p => if p = ["ws", "link"] then some ["etc"] else none
    cwd := [] }

/-- Environment of a turn in which the SDK is present, connection succeeds on
the first attempt, and the caller supplied no user message. -/
def c3Env : CCEnv :=
  { sdkAvailable := true, storeSid := none
    createOk1 := true, connectOk1 := true, createOk2 := true, connectOk2 := true
    messages := [], receiveOk := true, disconnectOk := true, events := [] }

/-- Same turn but with a user message present. -/
def c3EnvQ : CCEnv :=
  { sdkAvailable := true, storeSid := none
    createOk1 := true, connectOk1 := true, createOk2 := true, connectOk2 := true
    messages := [⟨"user", "hi"⟩], receiveOk := true, disconnectOk := true, events := [] }

/-- Environment whose stored session id `"OLD"` is rejected by the backend;
the fresh connection succeeds. -/
def c6Env : CCEnv :=
  { sdkAvailable := true, storeSid := some "OLD"
    createOk1 := true, connectOk1 := false, createOk2 := true, connectOk2 := true
    messages := [⟨"user", "hi"⟩], receiveOk := true, disconnectOk := true, events := [] }

/-- A matcher modelling the compiled pattern that matches exactly the line
`"x"`, and a file list with one file whose single line does not match. -/
def c9Matcher : List Char → Option (List Char) :=
  fun l => if l = "x".toList then some "x".toList else none

def c9Files : List (String × List (List Char)) := [("a.py", ["y".toList])]

/-- The event sequence of the C7 scenario. -/
def c7Events : List CEvent :=
  [CEvent.system "init" (some "S1"),
   CEvent.assistant [CBlock.text "Hello".toList],
   CEvent.assistant [CBlock.text "Hello world".toList],
   CEvent.result "Hello world!".toList]

/-! ## Lemmas about lines, joining and stripping -/

theorem splitNL_ne_nil : ∀ l : List Char, splitNL l ≠ []
  | [] => by simp [splitNL]
  | c :: rest => by
    unfold splitNL
    by_cases h : c = '\n'
    · simp [h]
    · simp only [h, if_false]
      cases hs : splitNL rest <;> simp

theorem no_nl_of_mem_splitNL : ∀ (l : List Char), ∀ p ∈ splitNL l, '\n' ∉ p := by
  intro l
  induction l with
  | nil => intro p hp; simp [splitNL] at hp; simp [hp]
  | cons c rest ih =>
    intro p hp
    unfold splitNL at hp
    by_cases h : c = '\n'
    · simp only [h, if_true] at hp
      rcases List.mem_cons.mp hp with h1 | h1
      · simp [h1]
      · exact ih p h1
    · simp only [h, if_false] at hp
      cases hs : splitNL rest with
      | nil => exact absurd hs (splitNL_ne_nil rest)
      | cons q qs =>
        rw [hs] at hp
        rcases List.mem_cons.mp hp with h1 | h1
        · subst h1
          intro hmem
          rcases List.mem_cons.mp hmem with h2 | h2
          · exact h h2.symm
          · exact ih q (hs ▸ List.mem_cons_self q qs) h2
        · exact ih p (hs ▸ List.mem_cons_of_mem q h1)

theorem splitNL_cons_ne (c : Char) (l : List Char) (hc : ¬ c = '\n')
    (q : List Char) (qs : List (List Char)) (h : splitNL l = q :: qs) :
    splitNL (c :: l) = (c :: q) :: qs := by
  unfold splitNL
  simp only [hc, if_false, h]

theorem splitNL_of_no_nl : ∀ (l : List Char), '\n' ∉ l → splitNL l = [l] := by
  intro l
  induction l with
  | nil => intro _; rfl
  | cons c rest ih =>
    intro h
    have hc : ¬ c = '\n' := fun hc => h (hc ▸ List.mem_cons_self c rest)
    have hr : '\n' ∉ rest := fun hm => h (List.mem_cons_of_mem c hm)
    unfold splitNL
    simp only [hc, if_false, ih hr]

theorem splitNL_append_nl (p z : List Char) (hp : '\n' ∉ p) :
    splitNL (p ++ '\n' :: z) = p :: splitNL z := by
  induction p with
  | nil => simp [splitNL]
  | cons c p' ih =>
    have hc : ¬ c = '\n' := fun hc => hp (hc ▸ List.mem_cons_self c p')
    have hp' : '\n' ∉ p' := fun hm => hp (List.mem_cons_of_mem c hm)
    simp only [List.cons_append]
    exact splitNL_cons_ne c _ hc p' (splitNL z) (ih hp')

theorem splitNL_interNL : ∀ (L : List (List Char)), L ≠ [] →
    (∀ p ∈ L, '\n' ∉ p) → splitNL (interNL L) = L := by
  intro L
  induction L with
  | nil => intro h; exact absurd rfl h
  | cons p L' ih =>
    intro _ hnl
    cases L' with
    | nil => exact splitNL_of_no_nl p (hnl p (List.mem_cons_self p []))
    | cons q L'' =>
      have h1 : interNL (p :: q :: L'') = p ++ '\n' :: interNL (q :: L'') := rfl
      rw [h1, splitNL_append_nl p _ (hnl p (List.mem_cons_self p _)),
        ih (by simp) (fun r hr => hnl r (List.mem_cons_of_mem p hr))]

theorem interNL_splitNL : ∀ l : List Char, interNL (splitNL l) = l := by
  intro l
  induction l with
  | nil => rfl
  | cons c rest ih =>
    unfold splitNL
    by_cases h : c = '\n'
    · simp only [h, if_true]
      cases hs : splitNL rest with
      | nil => exact absurd hs (splitNL_ne_nil rest)
      | cons q qs =>
        have ih' : interNL (q :: qs) = rest := by rw [← hs]; exact ih
        have h1 : interNL ([] :: q :: qs) = [] ++ '\n' :: interNL (q :: qs) := rfl
        rw [h1, ih']
        rfl
    · simp only [h, if_false]
      cases hs : splitNL rest with
      | nil => exact absurd hs (splitNL_ne_nil rest)
      | cons q qs =>
        have ih' : interNL (q :: qs) = rest := by rw [← hs]; exact ih
        cases qs with
        | nil =>
          have hq : interNL [q] = q := rfl
          rw [hq] at ih'
          have h1 : interNL [c :: q] = c :: q := rfl
          rw [h1, ih']
        | cons r rs =>
          have h1 : interNL ((c :: q) :: r :: rs) = (c :: q) ++ '\n' :: interNL (r :: rs) := rfl
          rw [h1]
          have h2 : interNL (q :: r :: rs) = q ++ '\n' :: interNL (r :: rs) := rfl
          rw [h2] at ih'
          simp only [List.cons_append, ih']

theorem dropWhile_append_all {α : Type} (p : α → Bool) :
    ∀ (a b : List α), (∀ c ∈ a, p c = true) →
      List.dropWhile p (a ++ b) = List.dropWhile p b := by
  intro a
  induction a with
  | nil => intro b _; rfl
  | cons c a' ih =>
    intro b h
    have hc : p c = true := h c (List.mem_cons_self c a')
    simp only [List.cons_append, List.dropWhile_cons, hc, if_true]
    exact ih b (fun x hx => h x (List.mem_cons_of_mem c hx))

theorem dropWhile_append_stop {α : Type} (p : α → Bool) :
    ∀ (a b : List α), (∃ c ∈ a, p c = false) →
      List.dropWhile p (a ++ b) = List.dropWhile p a ++ b := by
  intro a
  induction a with
  | nil => intro b h; exact absurd h (by simp)
  | cons c a' ih =>
    intro b h
    by_cases hc : p c = true
    · have h' : ∃ x ∈ a', p x = false := by
        rcases h with ⟨x, hx, hpx⟩
        rcases List.mem_cons.mp hx with h1 | h1
        · exact absurd (h1 ▸ hpx) (by simp [hc])
        · exact ⟨x, h1, hpx⟩
      simp only [List.cons_append, List.dropWhile_cons, hc, if_true]
      exact ih b h'
    · have hc' : p c = false := by
        cases hpc : p c with
        | false => rfl
        | true => exact absurd hpc hc
      simp only [List.cons_append, List.dropWhile_cons, hc', Bool.false_eq_true, if_false]

theorem nonBlank_exists {l : List Char} (h : nonBlank l = true) :
    ∃ c ∈ l, pyIsSpace c = false := by
  rcases List.any_eq_true.mp h with ⟨c, hc, hpc⟩
  exact ⟨c, hc, by simpa using hpc⟩

theorem blank_forall {l : List Char} (h : nonBlank l = false) :
    ∀ c ∈ l, pyIsSpace c = true := by
  intro c hc
  by_contra hne
  have : nonBlank l = true := List.any_eq_true.mpr ⟨c, hc, by simpa using hne⟩
  simp [this] at h

theorem interNL_blank : ∀ (L : List (List Char)),
    (∀ p ∈ L, nonBlank p = false) → ∀ c ∈ interNL L, pyIsSpace c = true := by
  intro L
  induction L with
  | nil => intro _ c hc; simp [interNL] at hc
  | cons p L' ih =>
    intro h c hc
    cases L' with
    | nil => exact blank_forall (h p (List.mem_cons_self p [])) c hc
    | cons q L'' =>
      have h1 : interNL (p :: q :: L'') = p ++ '\n' :: interNL (q :: L'') := rfl
      rw [h1] at hc
      rcases List.mem_append.mp hc with h2 | h2
      · exact blank_forall (h p (List.mem_cons_self p _)) c h2
      · rcases List.mem_cons.mp h2 with h3 | h3
        · simp [h3, pyIsSpace]
        · exact ih (fun r hr => h r (List.mem_cons_of_mem p hr)) c h3

theorem pyStrip_blank_prepend (a z : List Char) (ha : ∀ c ∈ a, pyIsSpace c = true) :
    pyStrip (a ++ z) = pyStrip z := by
  unfold pyStrip
  rw [dropWhile_append_all pyIsSpace a z ha]

theorem pyStrip_blank_append (z a : List Char) (ha : ∀ c ∈ a, pyIsSpace c = true)
    (hz : ∃ c ∈ z, pyIsSpace c = false) : pyStrip (z ++ a) = pyStrip z := by
  unfold pyStrip
  rw [dropWhile_append_stop pyIsSpace z a hz, List.reverse_append]
  have ha' : ∀ c ∈ a.reverse, pyIsSpace c = true := by
    intro c hc; exact ha c (List.mem_reverse.mp hc)
  rw [dropWhile_append_all pyIsSpace a.reverse _ ha']

theorem strip_single_piece : ∀ (L : List (List Char)) (l : List Char),
    L.filter nonBlank = [l] → pyStrip (interNL L) = pyStrip l := by
  intro L
  induction L with
  | nil => intro l h; simp at h
  | cons p L' ih =>
    intro l h
    by_cases hb : nonBlank p = true
    · rw [List.filter_cons_of_pos hb] at h
      have hp : p = l := (List.cons_eq_cons.mp h).1
      have hL' : L'.filter nonBlank = [] := (List.cons_eq_cons.mp h).2
      have hblank : ∀ q ∈ L', nonBlank q = false := by
        intro q hq
        have := List.filter_eq_nil_iff.mp hL' q hq
        simpa using this
      subst hp
      cases L' with
      | nil => rfl
      | cons q L'' =>
        have h1 : interNL (p :: q :: L'') = p ++ '\n' :: interNL (q :: L'') := rfl
        rw [h1]
        apply pyStrip_blank_append
        · intro c hc
          rcases List.mem_cons.mp hc with h2 | h2
          · simp [h2, pyIsSpace]
          · exact interNL_blank (q :: L'') hblank c h2
        · exact nonBlank_exists hb
    · have hb' : nonBlank p = false := by
        cases hpb : nonBlank p with
        | false => rfl
        | true => exact absurd hpb hb
      rw [List.filter_cons_of_neg (by simp [hb'])] at h
      have hne : L' ≠ [] := by
        intro hnil
        rw [hnil] at h
        simp at h
      cases L' with
      | nil => exact absurd rfl hne
      | cons q L'' =>
        have h1 : interNL (p :: q :: L'') = (p ++ ['\n']) ++ interNL (q :: L'') := by
          simp [interNL]
        rw [h1]
        rw [pyStrip_blank_prepend (p ++ ['\n']) _ ?_]
        · exact ih l h
        · intro c hc
          rcases List.mem_append.mp hc with h2 | h2
          · exact blank_forall hb' c h2
          · rcases List.mem_singleton.mp h2 with h3
            simp [h3, pyIsSpace]

theorem nl_mem_pyStrip (l z : List Char) (hl : ∃ c ∈ l, pyIsSpace c = false)
    (hz : ∃ c ∈ z, pyIsSpace c = false) : '\n' ∈ pyStrip (l ++ '\n' :: z) := by
  unfold pyStrip
  rw [dropWhile_append_stop pyIsSpace l ('\n' :: z) hl]
  rw [show List.dropWhile pyIsSpace l ++ '\n' :: z =
    (List.dropWhile pyIsSpace l ++ ['\n']) ++ z from by simp]
  rw [List.reverse_append]
  have hz' : ∃ c ∈ z.reverse, pyIsSpace c = false := by
    rcases hz with ⟨c, hc, hpc⟩
    exact ⟨c, List.mem_reverse.mpr hc, hpc⟩
  rw [dropWhile_append_stop pyIsSpace z.reverse _ hz']
  rw [List.mem_reverse]
  apply List.mem_append_right
  simp

/-! ## C8 — filter idempotence -/

theorem noContent_no_nl : '\n' ∉ noContentSentinel := by decide

/-- CLAIM C8: the content filter of the stateful backend is idempotent: for
every input string `x`, `_filter_content (_filter_content x) =
_filter_content x`. -/
theorem c8_filter_idempotent : ∀ x : List Char,
    filter_content (filter_content x) = filter_content x := by
  intro x
  by_cases h1 : x = []
  · subst h1; rfl
  by_cases h2 : pyStrip x = noContentSentinel
  · rw [show filter_content x = [] from by unfold filter_content; simp [h1, h2]]
    rfl
  have hM : filter_content x = interNL ((splitNL x).filter nonBlank) := by
    unfold filter_content; simp [h1, h2]
  cases hMv : (splitNL x).filter nonBlank with
  | nil =>
    rw [hM, hMv]
    rfl
  | cons l M' =>
    have hmem : ∀ p ∈ l :: M', nonBlank p = true := by
      intro p hp
      have : p ∈ (splitNL x).filter nonBlank := hMv ▸ hp
      exact List.of_mem_filter this
    have hnl : ∀ p ∈ l :: M', '\n' ∉ p := by
      intro p hp
      have : p ∈ (splitNL x).filter nonBlank := hMv ▸ hp
      exact no_nl_of_mem_splitNL x p (List.mem_of_mem_filter this)
    have hlne : l ≠ [] := by
      rcases nonBlank_exists (hmem l (List.mem_cons_self l M')) with ⟨c, hc, _⟩
      intro h; rw [h] at hc; simp at hc
    have hne : interNL (l :: M') ≠ [] := by
      cases M' with
      | nil => exact hlne
      | cons q M'' =>
        have h1' : interNL (l :: q :: M'') = l ++ '\n' :: interNL (q :: M'') := rfl
        rw [h1']
        intro hc
        exact hlne (List.append_eq_nil.mp hc).1
    have hstrip : pyStrip (interNL (l :: M')) ≠ noContentSentinel := by
      cases M' with
      | nil =>
        have hs : pyStrip (interNL (splitNL x)) = pyStrip l :=
          strip_single_piece (splitNL x) l hMv
        rw [interNL_splitNL] at hs
        have h1' : interNL [l] = l := rfl
        rw [h1', ← hs]
        exact h2
      | cons q M'' =>
        have h1' : interNL (l :: q :: M'') = l ++ '\n' :: interNL (q :: M'') := rfl
        rw [h1']
        intro hcontra
        have hmemnl : '\n' ∈ pyStrip (l ++ '\n' :: interNL (q :: M'')) := by
          apply nl_mem_pyStrip
          · exact nonBlank_exists (hmem l (List.mem_cons_self l _))
          · rcases nonBlank_exists (hmem q (List.mem_cons_of_mem l (List.mem_cons_self q M''))) with ⟨c, hc, hpc⟩
            refine ⟨c, ?_, hpc⟩
            cases M'' with
            | nil => exact hc
            | cons r rs =>
              have h2' : interNL (q :: r :: rs) = q ++ '\n' :: interNL (r :: rs) := rfl
              rw [h2']
              exact List.mem_append_left _ hc
        rw [hcontra] at hmemnl
        exact noContent_no_nl hmemnl
    rw [hM, hMv]
    unfold filter_content
    simp only [hne, if_false, hstrip, if_false, if_neg hne, if_neg hstrip]
    rw [splitNL_interNL (l :: M') (by simp) hnl]
    rw [List.filter_eq_self.mpr hmem]

/-! ## C2 — the forward-difference invariant -/

/-- The last cumulative value of a sequence (`sn`), with a default for the
empty sequence. -/
def lastCum (full : List Char) : List (List Char) → List Char
  | [] => full
  | c :: rest => lastCum c rest

theorem isPrefixOf_append_drop :
    ∀ (a b : List Char), a.isPrefixOf b = true → a ++ b.drop a.length = b := by
  intro a
  induction a with
  | nil => intro b _; simp
  | cons x a' ih =>
    intro b h
    cases b with
    | nil => simp [List.isPrefixOf] at h
    | cons y b' =>
      simp only [List.isPrefixOf, Bool.and_eq_true, beq_iff_eq] at h
      rcases h with ⟨hxy, hpre⟩
      subst hxy
      simp only [List.length_cons, List.drop_succ_cons, List.cons_append,
        List.cons.injEq, true_and]
      exact ih b' hpre

theorem eq_of_isPrefixOf_of_le (a b : List Char) (h : a.isPrefixOf b = true)
    (hle : b.length ≤ a.length) : a = b := by
  have h1 := isPrefixOf_append_drop a b h
  rw [List.drop_eq_nil_of_le hle] at h1
  simpa using h1

theorem forwardDeltas_flatten : ∀ (cs : List (List Char)) (full : List Char),
    prefixChainB full cs = true →
    full ++ (forwardDeltas full cs).flatten = lastCum full cs := by
  intro cs
  induction cs with
  | nil => intro full _; simp [forwardDeltas, lastCum]
  | cons c rest ih =>
    intro full h
    simp only [prefixChainB, Bool.and_eq_true] at h
    rcases h with ⟨hpre, hchain⟩
    unfold forwardDeltas lastCum
    by_cases hlt : full.length < c.length
    · simp only [hlt, if_true, List.flatten_cons, ← List.append_assoc]
      rw [isPrefixOf_append_drop full c hpre]
      exact ih c hchain
    · have hc : full = c :=
        eq_of_isPrefixOf_of_le full c hpre (Nat.le_of_not_lt hlt)
      simp only [hlt, if_false]
      rw [← hc] at hchain ⊢
      exact ih full hchain

theorem forwardDeltas_ne_nil : ∀ (cs : List (List Char)) (full : List Char),
    ∀ d ∈ forwardDeltas full cs, d ≠ [] := by
  intro cs
  induction cs with
  | nil => intro full d hd; simp [forwardDeltas] at hd
  | cons c rest ih =>
    intro full d hd
    unfold forwardDeltas at hd
    by_cases hlt : full.length < c.length
    · simp only [hlt, if_true] at hd
      rcases List.mem_cons.mp hd with h1 | h1
      · subst h1
        have hlen : (c.drop full.length).length = c.length - full.length := List.length_drop _ _
        intro hnil
        have h0 : c.length - full.length = 0 := by rw [← hlen, hnil]; rfl
        omega
      · exact ih c d h1
    · simp only [hlt, if_false] at hd
      exact ih full d hd

theorem claudeDeltas_eq_filtered : ∀ (cs : List (List Char)) (full : List Char),
    claudeDeltas full cs = (forwardDeltas full cs).filterMap
      (fun d => if filter_content d = [] then none else some (filter_content d)) := by
  intro cs
  induction cs with
  | nil => intro full; rfl
  | cons c rest ih =>
    intro full
    unfold claudeDeltas forwardDeltas
    by_cases hlt : full.length < c.length
    · simp only [hlt, if_true, List.filterMap_cons]
      by_cases hf : filter_content (c.drop full.length) = []
      · simp only [hf, if_true]
        exact ih c
      · simp only [hf, if_false]
        rw [ih c]
    · simp only [hlt, if_false]
      exact ih full

/-- COUNTEREXAMPLE to CLAIM C2: for the cumulative prefix-chain
`["a\n", "a\n\nb"]`, the stateful Claude stream yields the filtered deltas
`["a", "b"]`, whose concatenation `"ab"` is not the final cumulative value
`"a\n\nb"` — the per-delta content filter breaks exact reconstruction. -/
theorem c2_counterexample :
    prefixChainB [] ["a\n".toList, "a\n\nb".toList] = true ∧
    claudeDeltas [] ["a\n".toList, "a\n\nb".toList] = ["a".toList, "b".toList] ∧
    (claudeDeltas [] ["a\n".toList, "a\n\nb".toList]).flatten ≠ "a\n\nb".toList := by
  refine ⟨by decide, by decide, by decide⟩

/-- CLAIM C2 (amended): for every prefix-extension chain of cumulative
contents, the stateless LangChain stream yields deltas whose concatenation
reconstructs exactly `sn`, and the stateful Claude stream yields exactly the
content-filtered forms of those same deltas (dropping those whose filtered
form is empty); in both streams no yielded delta is ever empty (in
particular, when two consecutive cumulative values are equal nothing is
yielded). -/
theorem c2_amended (cs : List (List Char)) (h : prefixChainB [] cs = true) :
    (forwardDeltas [] cs).flatten = lastCum [] cs ∧
    (∀ d ∈ forwardDeltas [] cs, d ≠ []) ∧
    claudeDeltas [] cs = (forwardDeltas [] cs).filterMap
      (fun d => if filter_content d = [] then none else some (filter_content d)) ∧
    (∀ d ∈ claudeDeltas [] cs, d ≠ []) := by
  refine ⟨?_, forwardDeltas_ne_nil cs [], claudeDeltas_eq_filtered cs [], ?_⟩
  · have := forwardDeltas_flatten cs [] h
    simpa using this
  · intro d hd
    rw [claudeDeltas_eq_filtered cs []] at hd
    rcases List.mem_filterMap.mp hd with ⟨a, _, ha⟩
    by_cases hf : filter_content a = []
    · simp [hf] at ha
    · simp only [hf, if_false, Option.some.injEq] at ha
      rw [← ha]
      exact hf

/-- Witness for C2 (amended), at the concrete chain `["Hel", "Hello"]`. -/
theorem c2_witness :
    (forwardDeltas [] ["Hel".toList, "Hello".toList]).flatten = "Hello".toList ∧
    claudeDeltas [] ["Hel".toList, "Hello".toList] = ["Hel".toList, "lo".toList] := by
  have h := c2_amended ["Hel".toList, "Hello".toList] (by decide)
  refine ⟨h.1.trans (by decide), (h.2.2.1).trans (by decide)⟩

/-! ## C7 — the streaming scenario of Adapter B -/

/-- CLAIM C7: on the event sequence
[init(session="S1"), assistant("Hello"), assistant("Hello world"),
result("Hello world!")] the stateful stream performs exactly the actions
[save "S1", yield "Hello", yield " world", yield "!"], in this order — the
session id is persisted to the Session Store before the first delta is
yielded. -/
theorem c7_scenario :
    streamEvents [] c7Events =
      [CAction.saveSession "S1",
       CAction.yieldDelta "Hello".toList,
       CAction.yieldDelta " world".toList,
       CAction.yieldDelta "!".toList] := by
  decide

/-! ## C10 — query construction of the stateful backend -/

theorem lastUserLoop_eq (l : List PyMsg) :
    lastUserLoop l =
      (((l.filter (fun m => m.role == "user")).head?).map PyMsg.content).getD "" := by
  induction l with
  | nil => rfl
  | cons m rest ih =>
    by_cases h : m.role = "user"
    · simp [lastUserLoop, h]
    · simp [lastUserLoop, h, ih]

/-- CLAIM C10: the query sent by the stateful backend is exactly the content
of the last user-role message (earlier messages and system/assistant messages
are discarded); when there is no user-role message, or its content is empty,
both `ainvoke` and `stream` return the fixed prompt `"请输入您的问题。"`
without reaching `client.query`. -/
theorem c10_last_user_query (msgs : List PyMsg) :
    construct_query msgs = ((lastUserMsg msgs).map PyMsg.content).getD "" ∧
    (lastUserMsg msgs = none → queryDecision msgs = Sum.inl "请输入您的问题。") ∧
    (∀ m, lastUserMsg msgs = some m → m.content = "" →
      queryDecision msgs = Sum.inl "请输入您的问题。") ∧
    (∀ m, lastUserMsg msgs = some m → m.content ≠ "" →
      queryDecision msgs = Sum.inr m.content) := by
  have hmain : construct_query msgs = ((lastUserMsg msgs).map PyMsg.content).getD "" := by
    unfold construct_query lastUserMsg
    rw [lastUserLoop_eq, List.filter_reverse, List.head?_reverse]
  refine ⟨hmain, ?_, ?_, ?_⟩
  · intro hnone
    unfold queryDecision
    rw [hmain, hnone]
    rfl
  · intro m hsome hempty
    unfold queryDecision
    rw [hmain, hsome]
    simp [hempty]
  · intro m hsome hne
    unfold queryDecision
    rw [hmain, hsome]
    simp [hne]

/-- Witness for C10: a turn whose last user message is `"hi"`. -/
theorem c10_witness :
    queryDecision [⟨"system", "s"⟩, ⟨"user", "hi"⟩, ⟨"assistant", "yo"⟩] =
      Sum.inr "hi" :=
  (c10_last_user_query [⟨"system", "s"⟩, ⟨"user", "hi"⟩, ⟨"assistant", "yo"⟩]).2.2.2
    ⟨"user", "hi"⟩ (by decide) (by decide)

/-! ## C4 — interruption on the stateless adapter -/

/-- COUNTEREXAMPLE to CLAIM C4: `AgentService` defines no `interrupt` method,
and neither does `BaseAgentService`, so attribute lookup for `"interrupt"`
fails — calling `interrupt()` on Adapter A raises `AttributeError` instead of
returning false. -/
theorem c4_counterexample : agentServiceHasAttr "interrupt" = false := by
  decide

/-- CLAIM C4 (amended): Adapter A does not implement interruption at all —
neither `AgentService` nor the shared base class defines an `interrupt`
method, so calling it fails with `AttributeError` rather than returning
false; only the stateful `ClaudeAgentService` defines `interrupt`. -/
theorem c4_amended_no_interrupt :
    agentServiceHasAttr "interrupt" = false ∧
    baseAgentServiceMethods.contains "interrupt" = false ∧
    claudeAgentServiceMethods.contains "interrupt" = true := by
  decide

/-! ## Lemmas about the connection step -/

theorem connectCC_ok_state (env : CCEnv) (s : CCState)
    (h : (connectCC env s).ok = true) :
    (connectCC env s).state.hasClient = true ∧
    (connectCC env s).state.connected = true := by
  unfold connectCC at h ⊢
  split_ifs at h ⊢ <;> simp_all [Bool.and_eq_true]

/-! ## C5 — availability of the stateful backend -/

/-- COUNTEREXAMPLE to CLAIM C5: `__init__` never constructs a client
(`self.client = None` in both its branches, regardless of configuration), so
on a freshly initialized service with the SDK installed `is_available()`
returns false, although a client could be constructed. -/
theorem c5_counterexample : is_availableCC true initCCState = false := by
  decide

/-- CLAIM C5 (amended): `is_available()` returns true iff the SDK is present
and a client object HAS been constructed and stored by a prior connect
attempt — after a successful `_connect` it is true, but a freshly
initialized service reports false even when the SDK is installed and the
configuration is valid, because no client is built at initialization. -/
theorem c5_amended_availability (env : CCEnv) (s : CCState) :
    is_availableCC true initCCState = false ∧
    (env.sdkAvailable = true → (connectCC env s).ok = true →
      is_availableCC env.sdkAvailable (connectCC env s).state = true) := by
  refine ⟨by decide, ?_⟩
  intro hsdk hok
  unfold is_availableCC
  rw [hsdk, (connectCC_ok_state env s hok).1]
  rfl

/-- Witness for C5 (amended): after the successful first connection of
`c3EnvQ`, availability is reported. -/
theorem c5_witness :
    is_availableCC c3EnvQ.sdkAvailable (connectCC c3EnvQ initCCState).state = true :=
  (c5_amended_availability c3EnvQ initCCState).2 rfl (by decide)

/-! ## C6 — the single-retry connect fallback -/

/-- CLAIM C6: when the connection attempt that uses a stored session id
fails, `_connect` falls back exactly once to a fresh connection without a
resume token — never more than two attempts in any run — and after the
fallback the in-memory session id is cleared to `None`; the fallback
connection's outcome is the outcome of the whole connect step. -/
theorem c6_single_retry :
    (∀ (env : CCEnv) (s : CCState), (connectCC env s).attempts.length ≤ 2) ∧
    (∀ (env : CCEnv) (s : CCState) (sid : String),
      (s.connected && s.hasClient) = false → env.sdkAvailable = true →
      env.storeSid = some sid → env.createOk1 = true → env.connectOk1 = false →
      env.createOk2 = true →
      (connectCC env s).attempts = [some sid, none] ∧
      (connectCC env s).state.sessionId = none ∧
      (connectCC env s).ok = env.connectOk2) := by
  constructor
  · intro env s
    unfold connectCC
    split_ifs <;> simp
  · intro env s sid hcs hsdk hsid hc1 ho1 hc2
    unfold connectCC
    rw [hcs, hsdk, hsid, hc1, ho1, hc2]
    cases hov : env.connectOk2 <;> simp

/-- Witness for C6: the stored token `"OLD"` is rejected, one tokenless
retry succeeds, and the session id is cleared. -/
theorem c6_witness :
    (connectCC c6Env initCCState).attempts = [some "OLD", none] ∧
    (connectCC c6Env initCCState).state.sessionId = none := by
  have h := c6_single_retry.2 c6Env initCCState "OLD" rfl rfl rfl rfl rfl rfl
  exact ⟨h.1, h.2.1⟩

/-! ## C3 — disconnection on every exit path -/

/-- COUNTEREXAMPLE to CLAIM C3: in a turn whose message list contains no user
message, both `ainvoke` and `stream` first establish a connection and then
take the empty-query early return without attempting `_disconnect` — the
connection is left open across turns. -/
theorem c3_counterexample :
    (ainvokeCC c3Env initCCState).2.2 = 0 ∧
    (ainvokeCC c3Env initCCState).2.1.connected = true ∧
    (ainvokeCC c3Env initCCState).1 = emptyPrompt ∧
    (streamCC c3Env initCCState).2.2 = 0 ∧
    (streamCC c3Env initCCState).2.1.connected = true := by
  decide

/-- CLAIM C3 (amended): disconnection is attempted on the normal completion
path, on receive failure, and on connection failure of every turn of both
`ainvoke` and `stream` — for every turn with a nonempty constructed query
`_disconnect` is attempted exactly once — but the early return for an empty
query (no user message) happens after `_connect` and skips disconnection,
leaving an established connection open.  (Whether an attempt actually clears
`_connected` depends on `client.disconnect()` not raising: a failing
disconnect is logged, swallowed, and leaves `_connected` set.) -/
theorem c3_amended_disconnect (env : CCEnv) (s : CCState)
    (hsdk : env.sdkAvailable = true) (hq : construct_query env.messages ≠ "") :
    (ainvokeCC env s).2.2 = 1 ∧ (streamCC env s).2.2 = 1 := by
  unfold ainvokeCC streamCC
  rw [hsdk]
  simp only [Bool.not_true, Bool.false_eq_true, if_false]
  by_cases hok : (connectCC env s).ok = true
  · have hcl := (connectCC_ok_state env s hok).1
    simp only [hok, Bool.not_true, Bool.false_eq_true, if_false, hcl,
      if_neg hq]
    by_cases hr : env.receiveOk = true
    · simp [hr]
    · have hr' : env.receiveOk = false := by
        cases hrv : env.receiveOk with
        | false => rfl
        | true => exact absurd hrv hr
      simp [hr']
  · have hok' : (connectCC env s).ok = false := by
      cases hov : (connectCC env s).ok with
      | false => rfl
      | true => exact absurd hov hok
    simp [hok']

/-- Witness for C3 (amended): the same successful-connection turn, but with a
user message present, attempts the disconnect in both `ainvoke` and
`stream`. -/
theorem c3_witness :
    (ainvokeCC c3EnvQ initCCState).2.2 = 1 ∧
    (streamCC c3EnvQ initCCState).2.2 = 1 := by
  have h := c3_amended_disconnect c3EnvQ initCCState rfl (by decide)
  exact ⟨h.1, h.2⟩

/-! ## C9 — grep result caps and structured empty results -/

theorem fileMatches_shape (matcher : List Char → Option (List Char))
    (iLn : Bool) (fp : String) :
    ∀ (n : Nat) (ls : List (List Char)) (r : GrepRecord),
      r ∈ fileMatches matcher iLn fp n ls →
      ∃ ln lc mt, r = GrepRecord.matchRec fp ln lc mt := by
  intro n ls
  induction ls generalizing n with
  | nil => intro r hr; simp [fileMatches] at hr
  | cons l rest ih =>
    intro r hr
    unfold fileMatches at hr
    cases hm : matcher l with
    | some m =>
      rw [hm] at hr
      rcases List.mem_cons.mp hr with h1 | h1
      · exact ⟨_, _, _, h1⟩
      · exact ih (n + 1) r h1
    | none =>
      rw [hm] at hr
      exact ih (n + 1) r hr

theorem fileMatches_eq_nil (matcher : List Char → Option (List Char))
    (iLn : Bool) (fp : String) :
    ∀ (n : Nat) (ls : List (List Char)), (∀ l ∈ ls, matcher l = none) →
      fileMatches matcher iLn fp n ls = [] := by
  intro n ls
  induction ls generalizing n with
  | nil => intro _; rfl
  | cons l rest ih =>
    intro h
    unfold fileMatches
    rw [h l (List.mem_cons_self l rest)]
    exact ih (n + 1) (fun x hx => h x (List.mem_cons_of_mem l hx))

/-- CLAIM C9: `grep_search` returns at most `max_results` match records; the
matched-file count is capped at 100 (every match record names one of the
first 100 matched files); when at least one file matched the file pattern but
no line matched the regular expression, the result is the single structured
informational record (distinguishing "searched, found nothing" from "nothing
to search"); the result is never an empty list. -/
theorem c9_grep_caps_and_info (matcher : List Char → Option (List Char))
    (iLn : Bool) (maxR : Nat) (files : List (String × List (List Char))) :
    ((grep_search matcher iLn maxR files).filter isMatchRec).length ≤ maxR ∧
    grep_search matcher iLn maxR files ≠ [] ∧
    (∀ fp ln lc mt,
      GrepRecord.matchRec fp ln lc mt ∈ grep_search matcher iLn maxR files →
      fp ∈ (files.take 100).map Prod.fst) ∧
    (files ≠ [] → (∀ f ∈ files, ∀ l ∈ f.2, matcher l = none) →
      grep_search matcher iLn maxR files = [GrepRecord.infoNoMatches files.length]) := by
  have hdef : grep_search matcher iLn maxR files =
      (if (((files.take 100).map
            (fun f => fileMatches matcher iLn f.1 1 f.2)).flatten).take maxR = [] then
        (if files ≠ [] then [GrepRecord.infoNoMatches files.length]
         else [GrepRecord.infoNoFiles])
      else (((files.take 100).map
            (fun f => fileMatches matcher iLn f.1 1 f.2)).flatten).take maxR) := rfl
  by_cases h0 : (((files.take 100).map
      (fun f => fileMatches matcher iLn f.1 1 f.2)).flatten).take maxR = []
  · rw [hdef, if_pos h0]
    by_cases hf : files ≠ []
    · rw [if_pos hf]
      refine ⟨by simp [isMatchRec], by simp, ?_, fun _ _ => rfl⟩
      intro fp ln lc mt hmem
      simp [isMatchRec] at hmem
    · rw [if_neg hf]
      refine ⟨by simp [isMatchRec], by simp, ?_, fun hne _ => absurd hne hf⟩
      intro fp ln lc mt hmem
      simp [isMatchRec] at hmem
  · rw [hdef, if_neg h0]
    refine ⟨?_, h0, ?_, ?_⟩
    · calc _ ≤ _ := List.length_filter_le _ _
        _ ≤ maxR := List.length_take_le _ _
    · intro fp ln lc mt hmem
      have hmem' := List.mem_of_mem_take hmem
      rcases List.mem_flatten.mp hmem' with ⟨L, hL, hrL⟩
      rcases List.mem_map.mp hL with ⟨f, hf, hfL⟩
      rcases fileMatches_shape matcher iLn f.1 1 f.2 _ (hfL ▸ hrL) with ⟨ln', lc', mt', heq⟩
      have hfp : fp = f.1 := by
        injection heq
      rw [hfp]
      exact List.mem_map.mpr ⟨f, hf, rfl⟩
    · intro _ hnone
      exfalso
      apply h0
      have hflat : ((files.take 100).map
          (fun f => fileMatches matcher iLn f.1 1 f.2)).flatten = [] := by
        rw [List.flatten_eq_nil_iff]
        intro L hL
        rcases List.mem_map.mp hL with ⟨f, hf, hfL⟩
        rw [← hfL]
        exact fileMatches_eq_nil matcher iLn f.1 1 f.2
          (hnone f (List.mem_of_mem_take hf))
      rw [hflat]
      exact List.take_nil

/-- Witness for C9: one matched file, no matching line — the single
informational record is returned. -/
theorem c9_witness :
    grep_search c9Matcher true 5 c9Files = [GrepRecord.infoNoMatches c9Files.length] :=
  (c9_grep_caps_and_info c9Matcher true 5 c9Files).2.2.2 (by decide) (by decide)

/-! ## C1 — sandbox containment of path validation -/

/-- CLAIM C1: for every symlink environment, workspace root and input path
(relative or absolute, with or without `..` components or symlinked
components), `_validate_path` either returns a canonicalized path of which
the resolved workspace root is a component-prefix (a descendant of the root,
canonicalized with symlink resolution before the containment check), or
fails with the path-escape error; and on a rejected path the tool functions
perform no filesystem operation. -/
theorem c1_sandbox_containment (fs : SymFs) (fuel : Nat) (wp fp : PyPath) :
    (∀ t, validate_path fs fuel wp fp = Except.ok t →
      (pyResolve fs fuel wp).isPrefixOf t = true) ∧
    (∀ e, validate_path fs fuel wp fp = Except.error e →
      (write_file fs fuel wp fp).2 = [] ∧ (mkdirTool fs fuel wp fp).2 = [] ∧
      (read_file fs fuel wp fp).2 = []) := by
  constructor
  · intro t h
    unfold validate_path at h
    by_cases h1 : fp.isAbsolute = true
    · rw [if_pos h1] at h
      by_cases h2 : (pyResolve fs fuel wp).isPrefixOf (pyResolve fs fuel fp) = true
      · rw [if_pos h2] at h
        injection h with h3
        rw [← h3]
        exact h2
      · rw [if_neg h2] at h
        exact absurd h (by simp)
    · rw [if_neg h1] at h
      by_cases h2 : (pyResolve fs fuel wp).isPrefixOf
          (resolveComps fs fuel [] (pyResolve fs fuel wp ++ fp.comps)) = true
      · rw [if_pos h2] at h
        injection h with h3
        rw [← h3]
        exact h2
      · rw [if_neg h2] at h
        exact absurd h (by simp)
  · intro e h
    unfold write_file mkdirTool read_file
    rw [h]
    exact ⟨rfl, rfl, rfl⟩

/-- Witness for C1: under root `/ws` with a symlink `/ws/link -> /etc`, the
traversal input `../etc/passwd` is rejected with no filesystem effect, and
the ordinary relative input `a/b` resolves to a descendant of the root. -/
theorem c1_witness :
    (write_file witFs 10 ⟨true, ["ws"]⟩ ⟨false, ["..", "etc", "passwd"]⟩).2 = [] ∧
    (pyResolve witFs 10 ⟨true, ["ws"]⟩).isPrefixOf ["ws", "a", "b"] = true := by
  have h1 := (c1_sandbox_containment witFs 10 ⟨true, ["ws"]⟩
    ⟨false, ["..", "etc", "passwd"]⟩).2 "路径超出工作区范围" (by rfl)
  have h2 := (c1_sandbox_containment witFs 10 ⟨true, ["ws"]⟩
    ⟨false, ["a", "b"]⟩).1 ["ws", "a", "b"] (by rfl)
  exact ⟨h1.1, h2⟩

end Guyi
